import Mathlib

/-!
Verification of the medical chatbot RAG system (chatbot_engine.py, app.py).

The development shallowly embeds the pure/observable core of the code:
the content normalizer `_extract_text_content`, the response assembler
`get_response`, the retrieval tool `retrieve_medical_context`,
`get_relevant_sources`, and the Flask session history store.  Python
strings are Lean `String`, Python `None`/exceptions are `Option`/`Except`,
and the external agent stream and vector store are modelled as explicit
inputs describing what the external collaborator did.
-/

/-- Python `str.strip()`: drop leading and trailing whitespace characters. -/
def pyStrip (s : String) : String :=
  ⟨((s.data.dropWhile Char.isWhitespace).reverse.dropWhile Char.isWhitespace).reverse⟩

/-- Python `str.lower()` on the characters of a string. -/
def pyLower (s : String) : String := ⟨s.data.map Char.toLower⟩

/-- Python `sep.join(parts)`. -/
def pyJoin (sep : String) : List String → String
  | [] => ""
  | [s] => s
  | s :: rest => s ++ sep ++ pyJoin sep rest

/-- Python slicing `s[:n]`: the first `n` characters of `s`. -/
def pySlice (s : String) (n : Nat) : String := ⟨s.data.take n⟩

/-- Does `pat` occur as a contiguous run at the start of `text`? -/
def charsStartWith : List Char → List Char → Bool
  | [], _ => true
  | _ :: _, [] => false
  | p :: ps, t :: ts => p = t && charsStartWith ps ts

/-- Python `pat in text` on character lists: substring containment. -/
def charsContain (pat : List Char) : List Char → Bool
  | [] => charsStartWith pat []
  | t :: ts => charsStartWith pat (t :: ts) || charsContain pat ts

/-- The body of `text if text else None` after a strip in the source:
trimmed string, or `none` when trimming yields the empty string. -/
def stripOrNone (s : String) : Option String :=
  let t := pyStrip s
  if t = "" then none else some t

mutual
/-- The `message_content` argument of `_extract_text_content`: Python
`None`, a plain string, a keyed record (dict), an ordered sequence
(list), or any other non-textual value. -/
inductive TextContent where
  | null : TextContent
  | str : String → TextContent
  | dict : Entries → TextContent
  | list : TCList → TextContent
  | other : TextContent
deriving Repr, DecidableEq
/-- The key/value entries of a keyed record. -/
inductive Entries where
  | nil : Entries
  | cons : String → TextContent → Entries → Entries
deriving Repr, DecidableEq
/-- An ordered sequence of content blocks. -/
inductive TCList where
  | nil : TCList
  | cons : TextContent → TCList → TCList
deriving Repr, DecidableEq
end

/-- Python `d.get(key)`: the value of the first matching key, else `None`. -/
def Entries.lookup : Entries → String → Option TextContent
  | .nil, _ => none
  | .cons k v rest, key => if k = key then some v else rest.lookup key

/-- The elements of a `TCList` as a Lean list. -/
def TCList.toList : TCList → List TextContent
  | .nil => []
  | .cons b rest => b :: rest.toList

instance {ε α : Type} [DecidableEq ε] [DecidableEq α] : DecidableEq (Except ε α) :=
fun a b =>
  match a, b with
  | .error e1, .error e2 =>
    match decEq e1 e2 with
    | isTrue h => isTrue (by rw [h])
    | isFalse h => isFalse (fun hh => h (by cases hh; rfl))
  | .ok a1, .ok a2 =>
    match decEq a1 a2 with
    | isTrue h => isTrue (by rw [h])
    | isFalse h => isFalse (fun hh => h (by cases hh; rfl))
  | .error _, .ok _ => isFalse (fun hh => by cases hh)
  | .ok _, .error _ => isFalse (fun hh => by cases hh)

mutual
/-- `MedicalChatbot._extract_text_content` (chatbot_engine.py lines 154-189).
`Except.error ()` models the `AttributeError` raised when a dict tagged
`type == "text"` carries a non-string `text` value (`.strip()` on a
non-string); every other path is total.  `Except.ok none` is Python
`None` (no textual content). -/
def extractTextContent : TextContent → Except Unit (Option String)
  | .null => .ok none
  | .str s => .ok (stripOrNone s)
  | .dict es =>
    match es.lookup "type" with
    | some (.str "text") =>
      match es.lookup "text" with
      | some (.str t) => .ok (stripOrNone t)
      | none => .ok (stripOrNone "")
      | some _ => .error ()
    | _ =>
      match extractAtKey es "content" with
      | some r => r
      | none =>
        match extractAtKey es "text" with
        | some r => r
        | none =>
          match extractAtKey es "value" with
          | some r => r
          | none => .ok none
  | .list bs => do
    let parts ← extractParts bs
    match parts with
    | [] => pure none
    | ps => pure (some (pyStrip (pyJoin "\n\n" ps)))
  | .other => .ok none

/-- `if key in message_content: return _extract_text_content(message_content[key])`:
`none` when the key is absent, otherwise the recursive extraction of its
value. -/
def extractAtKey : Entries → String → Option (Except Unit (Option String))
  | .nil, _ => none
  | .cons k v rest, key =>
    if k = key then some (extractTextContent v) else extractAtKey rest key

/-- The `parts` accumulation loop of the list branch: recursively extract
each block, keeping the truthy (non-`None`, non-empty) results in order;
a raised error propagates. -/
def extractParts : TCList → Except Unit (List String)
  | .nil => .ok []
  | .cons b rest => do
    let bt ← extractTextContent b
    let parts ← extractParts rest
    match bt with
    | some s => if s ≠ "" then pure (s :: parts) else pure parts
    | none => pure parts
end

/-- A message observed by `get_response`: either a non-dict object (with
an optional `type` attribute, an optional `content` attribute, and its
class name) or a Python dict (with optional `type`, `role` and `content`
keys).  A dict has no `type`/`content` attributes and its class name is
`"dict"`. -/
inductive PyMessage where
  | obj : Option String → Option TextContent → String → PyMessage
  | pdict : Option String → Option String → Option TextContent → PyMessage
deriving Repr, DecidableEq

/-- chatbot_engine.py lines 217-222: `message_type` is the `type`
attribute when present; for a dict it is `get('type') or get('role')`
(the falsy empty string falls through to `role`); otherwise `None`. -/
def messageType : PyMessage → Option String
  | .obj t? _ _ => t?
  | .pdict t? r? _ =>
    match t? with
    | some t => if t = "" then r? else some t
    | none => r?

/-- chatbot_engine.py lines 224-229: `raw_content` is the `content`
attribute or dict key when present, else `None`. -/
def rawContent : PyMessage → TextContent
  | .obj _ c? _ => c?.getD .null
  | .pdict _ _ c? => c?.getD .null

/-- `last_message.__class__.__name__` of the message. -/
def className : PyMessage → String
  | .obj _ _ n => n
  | .pdict _ _ _ => "dict"

/-- chatbot_engine.py lines 233-239: a message counts as an AI message
when its `message_type` is `'ai'` or `'assistant'`, and otherwise when
the lowercased class name contains `'aimessage'` (every Python value has
`__class__`, so the `elif` always fires). -/
def isAiMessage (m : PyMessage) : Bool :=
  if messageType m = some "ai" || messageType m = some "assistant" then true
  else charsContain ("aimessage".data) ((pyLower (className m)).data)

/-- Python truthiness of the extracted text: not `None` and non-empty. -/
def pyTruthy : Option String → Bool
  | some s => s ≠ ""
  | none => false

/-- The `for event in self.agent.stream(...)` loop of `get_response`
(lines 203-243), threading the `final_response` accumulator.  An event is
its `messages` list (`event.get("messages", [])`); events with an empty
list are skipped.  An error raised by content extraction aborts the loop. -/
def processEvents : List (List PyMessage) → Option String → Except Unit (Option String)
  | [], acc => .ok acc
  | ev :: rest, acc =>
    match ev.getLast? with
    | none => processEvents rest acc
    | some m =>
      match extractTextContent (rawContent m) with
      | .error e => .error e
      | .ok text =>
        processEvents rest (if isAiMessage m && pyTruthy text then text else acc)

/-- How the underlying agent stream can fail after yielding its events. -/
inductive StreamExc where
  | timeoutError : StreamExc
  | otherError : StreamExc
deriving Repr, DecidableEq

/-- `MedicalChatbot.get_response` (lines 191-260).  `events` are the
messages lists the stream yielded before ending or raising; `exc` is the
exception the stream raised after those events, if any. -/
def getResponse (user_message : String) (events : List (List PyMessage))
    (exc : Option StreamExc) : String :=
  if user_message = "" || pyStrip user_message = "" then
    "Please provide a valid question."
  else
    match processEvents events none with
    | .error _ =>
      "I apologize, but I encountered an error processing your request. Please try again or rephrase your question."
    | .ok finalResponse =>
      match exc with
      | some .timeoutError => "The request timed out. Please try again with a shorter question."
      | some .otherError =>
        "I apologize, but I encountered an error processing your request. Please try again or rephrase your question."
      | none =>
        match finalResponse with
        | some r =>
          if r = "" then
            "I apologize, but I couldn\x27t generate a response. Please try rephrasing your question or ask something else."
          else r
        | none =>
          "I apologize, but I couldn\x27t generate a response. Please try rephrasing your question or ask something else."

/-- A document returned by the vector store: its metadata dict (string
valued) and its `page_content`. -/
structure Doc where
  metadata : List (String × String)
  page_content : String
deriving Repr, DecidableEq

/-- Python `metadata.get(key)` on a string-valued dict. -/
def metaLookup : List (String × String) → String → Option String
  | [], _ => none
  | (k, v) :: rest, key => if k = key then some v else metaLookup rest key

/-- What the external `similarity_search` call did: returned a list of
documents, or raised an exception whose `str(e)` is the given message. -/
inductive SearchOutcome where
  | found : List Doc → SearchOutcome
  | raises : String → SearchOutcome
deriving Repr, DecidableEq

/-- The `retrieve_medical_context` tool (chatbot_engine.py lines 84-108):
`storeAvailable` models the truthiness of the captured `vectorstore`
handle.  Returns the serialized context string paired with the artifact
document list. -/
def retrieve_medical_context (storeAvailable : Bool) (search : SearchOutcome) :
    String × List Doc :=
  if !storeAvailable then ("Knowledge base is not available.", [])
  else
    match search with
    | .raises msg => ("Error accessing knowledge base: " ++ msg, [])
    | .found [] => ("No relevant medical information found in the knowledge base.", [])
    | .found docs =>
      (pyJoin "\n\n" (docs.map fun doc =>
        "Source: " ++ (metaLookup doc.metadata "source").getD "Unknown" ++
        "\nContent: " ++ doc.page_content), docs)

/-- One entry of the `get_relevant_sources` result. -/
structure SourceEntry where
  source : String
  content : String
deriving Repr, DecidableEq

/-- `MedicalChatbot.get_relevant_sources` (chatbot_engine.py lines
262-275), over the outcome of the underlying similarity search. -/
def get_relevant_sources (search : SearchOutcome) : List SourceEntry :=
  match search with
  | .raises _ => []
  | .found docs =>
    docs.map fun doc =>
      { source := (metaLookup doc.metadata "source").getD "Unknown"
        content :=
          if doc.page_content.length > 200 then pySlice doc.page_content 200 ++ "..."
          else doc.page_content }

/-- A conversation turn stored in the history (app.py lines 79-93). -/
structure Turn where
  role : String
  message : String
  timestamp : String
deriving Repr, DecidableEq

/-- The process-wide `conversations` dict, as an association list. -/
abbrev Store := List (String × List Turn)

/-- Python `session_id in conversations` / `conversations[session_id]`. -/
def storeFind : Store → String → Option (List Turn)
  | [], _ => none
  | (k, v) :: rest, id => if k = id then some v else storeFind rest id

/-- Python `conversations[session_id] = ts`: replace the existing entry
or insert a new one. -/
def storeSet : Store → String → List Turn → Store
  | [], id, ts => [(id, ts)]
  | (k, v) :: rest, id, ts =>
    if k = id then (k, ts) :: rest else (k, v) :: storeSet rest id ts

/-- The `/api/history` handler `get_history` (app.py lines 107-117):
`sid` is `session.get('session_id')`.  Returns the history list of the
JSON response. -/
def get_history (st : Store) (sid : Option String) : List Turn :=
  match sid with
  | none => []
  | some id =>
    if id = "" then []
    else
      match storeFind st id with
      | none => []
      | some ts => ts

/-- The `/api/clear` handler `clear_history` (app.py lines 120-132):
empties the entry when a truthy session id exists in the store. -/
def clear_history (st : Store) (sid : Option String) : Store :=
  match sid with
  | none => st
  | some id =>
    if id = "" then st
    else
      match storeFind st id with
      | some _ => storeSet st id []
      | none => st

/-- The append performed by the `/api/chat` handler (app.py lines 73-83):
ensure the session entry exists, then append the turn to its list. -/
def chatAppendTurn (st : Store) (id : String) (t : Turn) : Store :=
  let st1 :=
    match storeFind st id with
    | some _ => st
    | none => storeSet st id []
  storeSet st1 id ((storeFind st1 id).getD [] ++ [t])

/-- A character list is nonempty and starts and ends with a
non-whitespace character. -/
def noWsEnds (l : List Char) : Bool :=
  match l.head?, l.getLast? with
  | some a, some b => !a.isWhitespace && !b.isWhitespace
  | _, _ => false

theorem noWsEnds_iff (l : List Char) :
    noWsEnds l = true ↔
      ∃ a b, l.head? = some a ∧ l.getLast? = some b ∧
        a.isWhitespace = false ∧ b.isWhitespace = false := by
  unfold noWsEnds
  cases hh : l.head? <;> cases hg : l.getLast? <;> simp

theorem head?_some_ne_nil {α : Type} {l : List α} {a : α} (h : l.head? = some a) :
    l ≠ [] := by
  cases l with
  | nil => simp at h
  | cons x xs => simp

theorem getLast?_cons_or {α : Type} (x : α) (xs : List α) :
    (x :: xs).getLast? = xs.getLast?.or (some x) := by
  have h : (x :: xs) = [x] ++ xs := rfl
  rw [h, List.getLast?_append]
  rfl

theorem some_or {α : Type} (a : α) (o : Option α) : (some a).or o = some a := rfl

theorem dropWhile_ws_eq_self {l : List Char} (h : noWsEnds l = true) :
    l.dropWhile Char.isWhitespace = l := by
  rcases (noWsEnds_iff l).1 h with ⟨a, b, ha, hb, hwa, hwb⟩
  cases l with
  | nil => simp at ha
  | cons c rest =>
    rw [List.head?_cons] at ha
    injection ha with ha
    subst ha
    rw [List.dropWhile_cons, hwa]
    simp

theorem noWsEnds_reverse {l : List Char} (h : noWsEnds l = true) :
    noWsEnds l.reverse = true := by
  rcases (noWsEnds_iff l).1 h with ⟨a, b, ha, hb, hwa, hwb⟩
  exact (noWsEnds_iff _).2
    ⟨b, a, by rw [List.head?_reverse]; exact hb,
      by rw [List.getLast?_reverse]; exact ha, hwb, hwa⟩

theorem string_data_eq_nil {s : String} : s.data = [] ↔ s = "" := by
  cases s with
  | mk d =>
    constructor
    · intro h
      have hd : d = [] := h
      subst hd
      rfl
    · intro h
      rw [h]

theorem exists_head?_of_ne_nil {α : Type} {l : List α} (h : l ≠ []) :
    ∃ a, l.head? = some a := by
  cases l with
  | nil => exact absurd rfl h
  | cons x xs => exact ⟨x, rfl⟩

theorem pyStrip_eq_self {s : String} (h : noWsEnds s.data = true) : pyStrip s = s := by
  unfold pyStrip
  rw [dropWhile_ws_eq_self h, dropWhile_ws_eq_self (noWsEnds_reverse h),
    List.reverse_reverse]

theorem head?_dropWhile_not {α : Type} {p : α → Bool} :
    ∀ (l : List α) {a : α}, (l.dropWhile p).head? = some a → p a = false := by
  intro l
  induction l with
  | nil => intro a h; simp [List.dropWhile] at h
  | cons x xs ih =>
    intro a h
    rw [List.dropWhile_cons] at h
    by_cases hx : p x = true
    · rw [if_pos hx] at h
      exact ih h
    · rw [if_neg hx] at h
      rw [List.head?_cons] at h
      injection h with h
      subst h
      exact Bool.eq_false_iff.2 hx

theorem getLast?_dropWhile {α : Type} {p : α → Bool} :
    ∀ (l : List α), l.dropWhile p ≠ [] → (l.dropWhile p).getLast? = l.getLast? := by
  intro l
  induction l with
  | nil => intro h; simp [List.dropWhile] at h
  | cons x xs ih =>
    intro h
    rw [List.dropWhile_cons] at h ⊢
    by_cases hx : p x = true
    · rw [if_pos hx] at h ⊢
      have hxs : xs ≠ [] := by
        intro hn
        rw [hn] at h
        simp [List.dropWhile] at h
      rw [ih h, getLast?_cons_or]
      rcases Option.isSome_iff_exists.1 (List.getLast?_isSome.2 hxs) with ⟨y, hy⟩
      rw [hy]
      rfl
    · rw [if_neg hx] at h ⊢

theorem dropWhile_ne_nil_of_src {α : Type} {p : α → Bool} {l : List α}
    (h : l.dropWhile p ≠ []) : l ≠ [] := by
  intro hn
  rw [hn] at h
  simp [List.dropWhile] at h

theorem noWsEnds_pyStrip {s : String} (h : pyStrip s ≠ "") :
    noWsEnds (pyStrip s).data = true := by
  have hdata : (pyStrip s).data =
      ((s.data.dropWhile Char.isWhitespace).reverse.dropWhile Char.isWhitespace).reverse := rfl
  have hrne : (s.data.dropWhile Char.isWhitespace).reverse.dropWhile Char.isWhitespace ≠ [] := by
    intro hn
    apply h
    rw [← string_data_eq_nil, hdata, hn]
    rfl
  have hmne : s.data.dropWhile Char.isWhitespace ≠ [] := by
    intro hn
    exact dropWhile_ne_nil_of_src hrne (by rw [hn]; rfl)
  rcases exists_head?_of_ne_nil hmne with ⟨a, hma⟩
  rcases exists_head?_of_ne_nil hrne with ⟨b, hrb⟩
  have hfront : (pyStrip s).data.head? = some a := by
    rw [hdata, List.head?_reverse, getLast?_dropWhile _ hrne, List.getLast?_reverse]
    exact hma
  have hback : (pyStrip s).data.getLast? = some b := by
    rw [hdata, List.getLast?_reverse]
    exact hrb
  exact (noWsEnds_iff _).2
    ⟨a, b, hfront, hback, head?_dropWhile_not s.data hma, head?_dropWhile_not _ hrb⟩

theorem stripOrNone_some {s t : String} (h : stripOrNone s = some t) :
    noWsEnds t.data = true := by
  unfold stripOrNone at h
  by_cases he : pyStrip s = ""
  · simp [he] at h
  · simp [he] at h
    rw [← h]
    exact noWsEnds_pyStrip he

theorem noWsEnds_ne_empty {s : String} (h : noWsEnds s.data = true) : s ≠ "" := by
  intro hn
  rw [hn] at h
  simp [noWsEnds] at h

theorem head?_append_left {α : Type} {l m : List α} (h : l ≠ []) :
    (l ++ m).head? = l.head? := by
  cases l with
  | nil => exact absurd rfl h
  | cons x xs => rfl

theorem noWsEnds_pyJoin :
    ∀ (parts : List String), parts ≠ [] →
      (∀ s ∈ parts, noWsEnds s.data = true) →
      noWsEnds (pyJoin "\n\n" parts).data = true := by
  intro parts
  induction parts with
  | nil => intro h; exact absurd rfl h
  | cons s rest ih =>
    intro _ h
    cases rest with
    | nil =>
      have := h s (by simp)
      simpa [pyJoin] using this
    | cons s2 rest2 =>
      have hs := h s (by simp)
      have hrest := ih (by simp) (fun x hx => h x (by simp [hx]))
      rcases (noWsEnds_iff _).1 hs with ⟨a, b, ha, hb, hwa, hwb⟩
      rcases (noWsEnds_iff _).1 hrest with ⟨c, d, hc, hd, hwc, hwd⟩
      apply (noWsEnds_iff _).2
      have hdata : (pyJoin "\n\n" (s :: s2 :: rest2)).data =
          (s.data ++ "\n\n".data) ++ (pyJoin "\n\n" (s2 :: rest2)).data := by
        show (s ++ "\n\n" ++ pyJoin "\n\n" (s2 :: rest2)).data = _
        rw [String.data_append, String.data_append]
      refine ⟨a, d, ?_, ?_, hwa, hwd⟩
      · rw [hdata, head?_append_left (l := s.data ++ "\n\n".data)
          (by simp [head?_some_ne_nil ha]),
          head?_append_left (head?_some_ne_nil ha)]
        exact ha
      · rw [hdata, List.getLast?_append]
        have : (pyJoin "\n\n" (s2 :: rest2)).data.getLast? = some d := hd
        rw [this]
        rfl

mutual
theorem extract_noWsEnds : ∀ (c : TextContent) (s : String),
    extractTextContent c = .ok (some s) → noWsEnds s.data = true
  | .null, s, h => by simp [extractTextContent] at h
  | .str t, s, h => by
    simp only [extractTextContent, Except.ok.injEq] at h
    exact stripOrNone_some h
  | .dict es, s, h => by
    simp only [extractTextContent] at h
    split at h
    · split at h
      · injection h with h
        exact stripOrNone_some h
      · injection h with h
        rw [show stripOrNone "" = none from rfl] at h
        exact Option.noConfusion h
      · exact Except.noConfusion h
    · split at h
      · next r heq =>
        exact extractAtKey_noWsEnds es "content" r s heq h
      · split at h
        · next r heq =>
          exact extractAtKey_noWsEnds es "text" r s heq h
        · split at h
          · next r heq =>
            exact extractAtKey_noWsEnds es "value" r s heq h
          · injection h with h
            exact Option.noConfusion h
  | .list bs, s, h => by
    simp only [extractTextContent, bind, Except.bind, pure, Except.pure] at h
    cases hp : extractParts bs with
    | error e =>
      rw [hp] at h
      exact Except.noConfusion h
    | ok parts =>
      rw [hp] at h
      cases parts with
      | nil =>
        injection h with h
        exact Option.noConfusion h
      | cons p ps' =>
        injection h with h
        injection h with h
        have hps := extractParts_noWsEnds bs (p :: ps') hp
        have hj := noWsEnds_pyJoin (p :: ps') (by simp) hps
        rw [← h, pyStrip_eq_self hj]
        exact hj
  | .other, s, h => by simp [extractTextContent] at h

theorem extractAtKey_noWsEnds : ∀ (es : Entries) (key : String)
    (r : Except Unit (Option String)) (s : String),
    extractAtKey es key = some r → r = .ok (some s) → noWsEnds s.data = true
  | .nil, key, r, s, h, hr => by simp [extractAtKey] at h
  | .cons k v rest, key, r, s, h, hr => by
    simp only [extractAtKey] at h
    by_cases hk : k = key
    · rw [if_pos hk] at h
      injection h with h
      exact extract_noWsEnds v s (by rw [h]; exact hr)
    · rw [if_neg hk] at h
      exact extractAtKey_noWsEnds rest key r s h hr

theorem extractParts_noWsEnds : ∀ (bs : TCList) (ps : List String),
    extractParts bs = .ok ps → ∀ s ∈ ps, noWsEnds s.data = true
  | .nil, ps, h => by
    simp only [extractParts, Except.ok.injEq] at h
    intro s hs
    rw [← h] at hs
    simp at hs
  | .cons b rest, ps, h => by
    simp only [extractParts, bind, Except.bind, pure, Except.pure] at h
    split at h
    · exact Except.noConfusion h
    · next bt heq =>
      split at h
      · exact Except.noConfusion h
      · next parts heq2 =>
        split at h
        · next s' =>
          split at h
          · injection h with h
            intro s hs
            rw [← h] at hs
            rcases List.mem_cons.1 hs with hs | hs
            · subst hs
              exact extract_noWsEnds b s heq
            · exact extractParts_noWsEnds rest parts heq2 s hs
          · injection h with h
            intro s hs
            rw [← h] at hs
            exact extractParts_noWsEnds rest parts heq2 s hs
        · injection h with h
          intro s hs
          rw [← h] at hs
          exact extractParts_noWsEnds rest parts heq2 s hs
end

theorem extractAtKey_eq : ∀ (es : Entries) (key : String),
    extractAtKey es key = (es.lookup key).map extractTextContent
  | .nil, _ => rfl
  | .cons k v rest, key => by
    simp only [extractAtKey, Entries.lookup]
    by_cases hk : k = key
    · rw [if_pos hk, if_pos hk]
      rfl
    · rw [if_neg hk, if_neg hk]
      exact extractAtKey_eq rest key

/-- When the discriminator tag is not the string `"text"`, the dict
branch of the normalizer probes the fallback keys. -/
theorem extract_dict_fallback (es : Entries)
    (hty : es.lookup "type" ≠ some (.str "text")) :
    extractTextContent (.dict es) =
      match extractAtKey es "content" with
      | some r => r
      | none =>
        match extractAtKey es "text" with
        | some r => r
        | none =>
          match extractAtKey es "value" with
          | some r => r
          | none => .ok none := by
  cases hl : es.lookup "type" with
  | none => simp only [extractTextContent, hl]
  | some v =>
    cases v with
    | null => simp only [extractTextContent, hl]
    | str t =>
      simp only [extractTextContent, hl]
      split
      · next heq =>
        exact absurd (by rw [← heq]; exact hl) hty
      · rfl
    | dict es2 => simp only [extractTextContent, hl]
    | list l2 => simp only [extractTextContent, hl]
    | other => simp only [extractTextContent, hl]

/-- C3: for a keyed-record input, a `type == "text"` tag yields the
trimmed `text` field (absent when trimming empties it or the field is
missing); otherwise the keys `content`, `text`, `value` are probed in
that fixed order, recursing into the first present one (its result is
returned directly, so later keys are never tried); with none of the
three present the result is absent. -/
theorem claim_c3_dict_normalizer (es : Entries) :
    (es.lookup "type" = some (.str "text") →
      (∀ t, es.lookup "text" = some (.str t) →
        extractTextContent (.dict es) =
          .ok (if pyStrip t = "" then none else some (pyStrip t)))
      ∧ (es.lookup "text" = none → extractTextContent (.dict es) = .ok none))
    ∧ (es.lookup "type" ≠ some (.str "text") →
      (∀ v, es.lookup "content" = some v →
        extractTextContent (.dict es) = extractTextContent v)
      ∧ (es.lookup "content" = none →
        ∀ v, es.lookup "text" = some v →
          extractTextContent (.dict es) = extractTextContent v)
      ∧ (es.lookup "content" = none → es.lookup "text" = none →
        ∀ v, es.lookup "value" = some v →
          extractTextContent (.dict es) = extractTextContent v)
      ∧ (es.lookup "content" = none → es.lookup "text" = none →
        es.lookup "value" = none → extractTextContent (.dict es) = .ok none)) := by
  constructor
  · intro hty
    constructor
    · intro t ht
      simp only [extractTextContent, hty, ht]
      rfl
    · intro ht
      simp only [extractTextContent, hty, ht]
      rfl
  · intro hty
    refine ⟨?_, ?_, ?_, ?_⟩
    · intro v hv
      rw [extract_dict_fallback es hty, extractAtKey_eq, hv]
      simp
    · intro hc v hv
      rw [extract_dict_fallback es hty, extractAtKey_eq, extractAtKey_eq, hc, hv]
      simp
    · intro hc ht v hv
      rw [extract_dict_fallback es hty, extractAtKey_eq, extractAtKey_eq,
        extractAtKey_eq, hc, ht, hv]
      simp
    · intro hc ht hv
      rw [extract_dict_fallback es hty, extractAtKey_eq, extractAtKey_eq,
        extractAtKey_eq, hc, ht, hv]
      simp

theorem claim_c3_witness :
    extractTextContent
      (.dict (.cons "type" (.str "text") (.cons "text" (.str " hi ") .nil))) =
      .ok (some "hi")
    ∧ extractTextContent
      (.dict (.cons "tag" (.str "x")
        (.cons "content" .null (.cons "text" (.str "later") .nil)))) = .ok none := by
  constructor
  · have h := ((claim_c3_dict_normalizer
      (.cons "type" (.str "text") (.cons "text" (.str " hi ") .nil))).1
      (by decide)).1 " hi " (by decide)
    rw [h]
    decide
  · have h := ((claim_c3_dict_normalizer
      (.cons "tag" (.str "x")
        (.cons "content" .null (.cons "text" (.str "later") .nil)))).2
      (by decide)).1 .null (by decide)
    rw [h]
    rfl

theorem forall₂_exists_left {α β : Type} {R : α → β → Prop} :
    ∀ {l1 : List α} {l2 : List β}, List.Forall₂ R l1 l2 →
      ∀ r ∈ l2, ∃ b ∈ l1, R b r := by
  intro l1 l2 h
  induction h with
  | nil => intro r hr; simp at hr
  | cons hab hrest ih =>
    intro r hr
    rcases List.mem_cons.1 hr with hr | hr
    · subst hr
      exact ⟨_, by simp, hab⟩
    · rcases ih r hr with ⟨b, hb, hR⟩
      exact ⟨b, by simp [hb], hR⟩

/-- When every element of the sequence extracts without error to the
corresponding result in `rs`, the parts loop collects exactly the
non-absent, non-empty results in order. -/
theorem extractParts_of_forall₂ : ∀ (bs : TCList) (rs : List (Option String)),
    List.Forall₂ (fun b r => extractTextContent b = .ok r) bs.toList rs →
    extractParts bs = .ok ((rs.filterMap id).filter (fun s => s ≠ ""))
  | .nil, rs, h => by
    cases h
    rfl
  | .cons b rest, rs, h => by
    cases h with
    | cons hbr hrest =>
      rename_i r rs'
      have ih := extractParts_of_forall₂ rest rs' hrest
      simp only [extractParts, bind, Except.bind, pure, Except.pure, hbr, ih]
      cases r with
      | none => simp [List.filterMap_cons]
      | some s =>
        by_cases hs : s = ""
        · subst hs
          simp [List.filterMap_cons]
        · simp [List.filterMap_cons, hs]

/-- The claim's description of the sequence rule: discard absent
results, keep the surviving non-empty strings, join with a blank line;
absent when nothing survives. -/
def specJoinParts (rs : List (Option String)) : Option String :=
  match (rs.filterMap id).filter (fun s => s ≠ "") with
  | [] => none
  | parts => some (pyJoin "\n\n" parts)

/-- C4: for every ordered-sequence input whose elements extract (without
error) to the results `rs`, the normalizer returns the non-absent,
non-empty results joined in element order by a blank-line separator, and
absent when no element yields text. -/
theorem claim_c4_list_normalizer (bs : TCList) (rs : List (Option String))
    (h : List.Forall₂ (fun b r => extractTextContent b = .ok r) bs.toList rs) :
    extractTextContent (.list bs) = .ok (specJoinParts rs) := by
  have hparts := extractParts_of_forall₂ bs rs h
  simp only [extractTextContent, bind, Except.bind, pure, Except.pure, hparts,
    specJoinParts]
  cases hP : (rs.filterMap id).filter (fun s => s ≠ "") with
  | nil => rfl
  | cons p ps' =>
    have hmem : ∀ s ∈ p :: ps', noWsEnds s.data = true := by
      intro s hs
      have h1 : s ∈ (rs.filterMap id).filter (fun s => s ≠ "") := by
        rw [hP]
        exact hs
      have h2 : s ∈ rs.filterMap id := List.mem_of_mem_filter h1
      rcases List.mem_filterMap.1 h2 with ⟨o, ho, hid⟩
      have ho' : some s ∈ rs := by
        cases o with
        | none => simp at hid
        | some x =>
          have : x = s := by simpa using hid
          rw [← this]
          exact ho
      rcases forall₂_exists_left h (some s) ho' with ⟨b, _, hb⟩
      exact extract_noWsEnds b s hb
    have hj := noWsEnds_pyJoin (p :: ps') (by simp) hmem
    show Except.ok (some (pyStrip (pyJoin "\n\n" (p :: ps')))) =
      Except.ok (some (pyJoin "\n\n" (p :: ps')))
    rw [pyStrip_eq_self hj]

theorem claim_c4_witness :
    extractTextContent (.list (.cons (.str "a") (.cons .null (.cons (.str "b") .nil)))) =
      .ok (some ("a" ++ "\n\n" ++ "b")) := by
  have h := claim_c4_list_normalizer
    (.cons (.str "a") (.cons .null (.cons (.str "b") .nil)))
    [some "a", none, some "b"]
    (List.Forall₂.cons (by decide)
      (List.Forall₂.cons (by decide)
        (List.Forall₂.cons (by decide) List.Forall₂.nil)))
  rw [h]
  decide

theorem pyStrip_eq_empty_of_all_ws {s : String}
    (h : ∀ c ∈ s.data, c.isWhitespace = true) : pyStrip s = "" := by
  apply string_data_eq_nil.1
  have h1 : s.data.dropWhile Char.isWhitespace = [] := List.dropWhile_eq_nil_iff.2 h
  show ((s.data.dropWhile Char.isWhitespace).reverse.dropWhile Char.isWhitespace).reverse = []
  rw [h1]
  rfl

theorem pyStrip_ne_empty_of_exists {s : String}
    (h : ∃ c ∈ s.data, c.isWhitespace = false) : pyStrip s ≠ "" := by
  rcases h with ⟨c, hc, hcw⟩
  intro hn
  have hdata : ((s.data.dropWhile Char.isWhitespace).reverse.dropWhile Char.isWhitespace).reverse = [] := by
    rw [← string_data_eq_nil] at hn
    exact hn
  rw [List.reverse_eq_nil_iff] at hdata
  have hall : ∀ x ∈ (s.data.dropWhile Char.isWhitespace).reverse, x.isWhitespace = true :=
    List.dropWhile_eq_nil_iff.1 hdata
  have hdrop : ∀ x ∈ s.data.dropWhile Char.isWhitespace, x.isWhitespace = true := by
    intro x hx
    exact hall x (List.mem_reverse.2 hx)
  have hsplit : c ∈ s.data.takeWhile Char.isWhitespace ∨
      c ∈ s.data.dropWhile Char.isWhitespace := by
    rw [← List.mem_append, List.takeWhile_append_dropWhile]
    exact hc
  rcases hsplit with hc2 | hc2
  · rw [List.mem_takeWhile_imp hc2] at hcw
    exact Bool.noConfusion hcw
  · rw [hdrop c hc2] at hcw
    exact Bool.noConfusion hcw

/-- C8: the normalizer on a plain string with some non-whitespace
character returns the trimmed string; on an all-whitespace or empty
string it returns absent; and re-normalizing any non-absent result
returns it unchanged (idempotence on results). -/
theorem claim_c8_idempotent :
    (∀ s : String, (∃ c ∈ s.data, c.isWhitespace = false) →
      extractTextContent (.str s) = .ok (some (pyStrip s)))
    ∧ (∀ s : String, (∀ c ∈ s.data, c.isWhitespace = true) →
      extractTextContent (.str s) = .ok none)
    ∧ (∀ (x : TextContent) (t : String), extractTextContent x = .ok (some t) →
      extractTextContent (.str t) = .ok (some t)) := by
  refine ⟨?_, ?_, ?_⟩
  · intro s hs
    have hne := pyStrip_ne_empty_of_exists hs
    simp only [extractTextContent, stripOrNone]
    simp [hne]
  · intro s hs
    have he := pyStrip_eq_empty_of_all_ws hs
    simp only [extractTextContent, stripOrNone]
    simp [he]
  · intro x t hx
    have hw := extract_noWsEnds x t hx
    have heq := pyStrip_eq_self hw
    have hne := noWsEnds_ne_empty hw
    simp only [extractTextContent, stripOrNone]
    simp [heq, hne]

theorem claim_c8_witness :
    extractTextContent (.str " ab ") = .ok (some "ab")
    ∧ extractTextContent (.str "  ") = .ok none
    ∧ extractTextContent (.str "ab") = .ok (some "ab") := by
  refine ⟨?_, ?_, ?_⟩
  · have h := claim_c8_idempotent.1 " ab " (by decide)
    rw [h]
    decide
  · exact claim_c8_idempotent.2.1 "  " (by decide)
  · exact claim_c8_idempotent.2.2 (.str "ab") "ab" (by decide)

theorem mem_of_getLast? {α : Type} : ∀ {l : List α} {a : α},
    l.getLast? = some a → a ∈ l := by
  intro l
  induction l with
  | nil => intro a h; simp at h
  | cons x xs ih =>
    intro a h
    rw [getLast?_cons_or] at h
    cases hx : xs.getLast? with
    | none =>
      rw [hx, Option.none_or] at h
      injection h with h
      subst h
      simp
    | some y =>
      rw [hx, some_or] at h
      injection h with h
      subst h
      exact List.mem_cons_of_mem _ (ih hx)

/-- The claim's notion of a qualifying message: assistant-authored with
content normalizing to non-absent text; its text when it qualifies. -/
def qualifyingText (m : PyMessage) : Option String :=
  match extractTextContent (rawContent m) with
  | .ok (some s) => if isAiMessage m then some s else none
  | _ => none

/-- The claim's description of the assembled answer: among the per-event
last messages, the text of the last qualifying one. -/
def specLastAnswer (events : List (List PyMessage)) : Option String :=
  ((events.filterMap List.getLast?).filterMap qualifyingText).getLast?

theorem qualifyingText_ne_empty {m : PyMessage} {r : String}
    (h : qualifyingText m = some r) : r ≠ "" := by
  unfold qualifyingText at h
  split at h
  · next s heq =>
    by_cases hai : isAiMessage m = true
    · rw [if_pos hai] at h
      injection h with h
      subst h
      exact noWsEnds_ne_empty (extract_noWsEnds _ _ heq)
    · rw [if_neg hai] at h
      exact Option.noConfusion h
  · exact Option.noConfusion h

/-- The streaming loop computes, relative to any starting candidate, the
last qualifying per-event last message, provided no content extraction
raises. -/
theorem processEvents_eq : ∀ (events : List (List PyMessage)) (acc : Option String),
    (∀ m ∈ events.filterMap List.getLast?,
      extractTextContent (rawContent m) ≠ .error ()) →
    processEvents events acc =
      .ok (((events.filterMap List.getLast?).filterMap qualifyingText).getLast?.or acc) := by
  intro events
  induction events with
  | nil => intro acc h; rfl
  | cons ev rest ih =>
    intro acc h
    cases hl : ev.getLast? with
    | none =>
      simp only [processEvents, hl]
      rw [ih acc (fun m hm => h m (by rw [List.filterMap_cons, hl]; exact hm))]
      rw [List.filterMap_cons, hl]
    | some m =>
      have hok := h m (by rw [List.filterMap_cons, hl]; exact List.mem_cons_self _ _)
      obtain ⟨t, ht⟩ : ∃ t, extractTextContent (rawContent m) = .ok t := by
        cases hx : extractTextContent (rawContent m) with
        | error e => cases e; exact absurd hx hok
        | ok t => exact ⟨t, rfl⟩
      simp only [processEvents, hl, ht]
      rw [ih _ (fun m' hm' =>
        h m' (by rw [List.filterMap_cons, hl]; exact List.mem_cons_of_mem _ hm'))]
      rw [List.filterMap_cons, hl, List.filterMap_cons]
      cases t with
      | none =>
        have hq : qualifyingText m = none := by
          simp [qualifyingText, ht]
        rw [hq]
        simp [pyTruthy]
      | some s =>
        have hs : s ≠ "" := noWsEnds_ne_empty (extract_noWsEnds _ _ ht)
        have htr : pyTruthy (some s) = true := by simp [pyTruthy, hs]
        by_cases hai : isAiMessage m = true
        · have hq : qualifyingText m = some s := by
            simp [qualifyingText, ht, hai]
          rw [hq, hai, htr]
          show Except.ok ((List.filterMap qualifyingText (rest.filterMap List.getLast?)).getLast?.or (some s)) = _
          rw [getLast?_cons_or, Option.or_assoc, some_or]
        · have hq : qualifyingText m = none := by
            simp [qualifyingText, ht, hai]
          have hai' : isAiMessage m = false := Bool.eq_false_iff.2 hai
          rw [hq, hai']
          rfl

theorem or_none {α : Type} (o : Option α) : o.or none = o := by
  cases o <;> rfl

/-- C1: with a non-blank user message, a stream that ends normally and
whose per-event last messages all extract without raising, the response
is the text of the last assistant-authored message whose content
normalizes to non-absent text (empty-message events are skipped), or the
fixed fallback apology when no message qualifies; the response is never
the empty string. -/
theorem claim_c1_assembler (um : String) (events : List (List PyMessage))
    (hum : pyStrip um ≠ "")
    (hok : ∀ m ∈ events.filterMap List.getLast?,
      extractTextContent (rawContent m) ≠ .error ()) :
    getResponse um events none =
      (specLastAnswer events).getD
        "I apologize, but I couldn\x27t generate a response. Please try rephrasing your question or ask something else."
    ∧ getResponse um events none ≠ "" := by
  have hum2 : um ≠ "" := by
    intro hn
    apply hum
    rw [hn]
    rfl
  have hguard : (decide (um = "") || decide (pyStrip um = "")) = false := by
    simp [hum2, hum]
  have hpe := processEvents_eq events none hok
  have hres : getResponse um events none =
      (match specLastAnswer events with
        | some r =>
          if r = "" then
            "I apologize, but I couldn\x27t generate a response. Please try rephrasing your question or ask something else."
          else r
        | none =>
          "I apologize, but I couldn\x27t generate a response. Please try rephrasing your question or ask something else.") := by
    unfold getResponse
    rw [hguard]
    simp only [Bool.false_eq_true, if_false]
    rw [hpe, or_none]
    rfl
  cases hX : specLastAnswer events with
  | none =>
    rw [hres, hX]
    constructor
    · rfl
    · decide
  | some r =>
    have hrne : r ≠ "" := by
      unfold specLastAnswer at hX
      rcases List.mem_filterMap.1 (mem_of_getLast? hX) with ⟨m, _, hq⟩
      exact qualifyingText_ne_empty hq
    rw [hres, hX]
    constructor
    · show (if r = "" then _ else r) = r
      rw [if_neg hrne]
    · show (if r = "" then _ else r) ≠ ""
      rw [if_neg hrne]
      exact hrne

theorem claim_c1_witness :
    getResponse "q"
      [[PyMessage.obj (some "ai") (some (.str "draft")) "AIMessage"],
       [PyMessage.obj (some "ai") (some (.str "final")) "AIMessage"]] none = "final" := by
  have h := (claim_c1_assembler "q"
    [[PyMessage.obj (some "ai") (some (.str "draft")) "AIMessage"],
     [PyMessage.obj (some "ai") (some (.str "final")) "AIMessage"]]
    (by decide) (by decide)).1
  rw [h]
  decide

/-- C2: with a non-blank user message and no extraction error among the
yielded events, a stream that raises a `TimeoutError` makes
`get_response` return the fixed timeout string, and any other raised
failure makes it return the fixed generic apology string; neither
failure propagates (the function is total and returns a canned string). -/
theorem claim_c2_error_handling (um : String) (events : List (List PyMessage))
    (t : Option String) (hum : pyStrip um ≠ "")
    (hok : processEvents events none = .ok t) :
    getResponse um events (some .timeoutError) =
      "The request timed out. Please try again with a shorter question."
    ∧ getResponse um events (some .otherError) =
      "I apologize, but I encountered an error processing your request. Please try again or rephrase your question." := by
  have hum2 : um ≠ "" := by
    intro hn
    apply hum
    rw [hn]
    rfl
  have hguard : (decide (um = "") || decide (pyStrip um = "")) = false := by
    simp [hum2, hum]
  constructor
  · unfold getResponse
    rw [hguard]
    simp only [Bool.false_eq_true, if_false]
    rw [hok]
  · unfold getResponse
    rw [hguard]
    simp only [Bool.false_eq_true, if_false]
    rw [hok]

theorem claim_c2_witness :
    getResponse "q" [] (some .timeoutError) =
      "The request timed out. Please try again with a shorter question."
    ∧ getResponse "q" [] (some .otherError) =
      "I apologize, but I encountered an error processing your request. Please try again or rephrase your question." :=
  claim_c2_error_handling "q" [] none (by decide) (by decide)

/-- The claim's classification rule taken verbatim: role/type equal to
`ai` or `assistant`, or — only when no such discriminator is present on
the message — a class name indicating an AI-message variant. -/
def specIsAiMessage (m : PyMessage) : Bool :=
  (messageType m = some "ai" || messageType m = some "assistant") ||
    ((messageType m).isNone &&
      charsContain ("aimessage".data) ((pyLower (className m)).data))

/-- C5 counterexample: a message object carrying the discriminator
`tool` but whose class name contains `aimessage` is classified as
assistant-authored by the code, while the claim says the fallback is
never applied when a different discriminator is present. -/
theorem claim_c5_counterexample :
    specIsAiMessage (PyMessage.obj (some "tool") none "ToolCallAIMessage") = false
    ∧ isAiMessage (PyMessage.obj (some "tool") none "ToolCallAIMessage") = true := by
  decide

/-- C5 amended: a message is classified as assistant-authored exactly
when its role/type discriminator equals `ai` or `assistant`, or
otherwise when its lowercased class name contains `aimessage` — the
class-name fallback applies whenever the discriminator test fails, even
when a discriminator with a different value (such as `tool`) is present. -/
theorem claim_c5_classifier_amended (m : PyMessage) :
    isAiMessage m = true ↔
      (messageType m = some "ai" ∨ messageType m = some "assistant" ∨
        charsContain ("aimessage".data) ((pyLower (className m)).data) = true) := by
  unfold isAiMessage
  split
  · next hcond =>
    simp only [Bool.or_eq_true, decide_eq_true_eq] at hcond
    constructor
    · intro _
      rcases hcond with h | h
      · exact Or.inl h
      · exact Or.inr (Or.inl h)
    · intro _
      rfl
  · next hcond =>
    simp only [Bool.or_eq_true, decide_eq_true_eq, not_or] at hcond
    constructor
    · intro h
      exact Or.inr (Or.inr h)
    · intro h
      rcases h with h | h | h
      · exact absurd h hcond.1
      · exact absurd h hcond.2
      · exact h

/-- C6: the retrieval tool pairs each failure-like outcome with an empty
passage list — the fixed unavailable string for a falsy store handle,
the distinct fixed no-results string for an empty search result, and a
descriptive error string for a raised failure — and in the non-empty
case serializes each passage as `Source: ...` / `Content: ...` joined by
blank lines, returning the passages alongside. -/
theorem claim_c6_retrieval_tool :
    (∀ search, retrieve_medical_context false search =
      ("Knowledge base is not available.", []))
    ∧ retrieve_medical_context true (.found []) =
      ("No relevant medical information found in the knowledge base.", [])
    ∧ (∀ msg, retrieve_medical_context true (.raises msg) =
      ("Error accessing knowledge base: " ++ msg, []))
    ∧ (∀ docs, docs ≠ [] → retrieve_medical_context true (.found docs) =
      (pyJoin "\n\n" (docs.map fun doc =>
        "Source: " ++ (metaLookup doc.metadata "source").getD "Unknown" ++
        "\nContent: " ++ doc.page_content), docs))
    ∧ ("Knowledge base is not available." ≠
        "No relevant medical information found in the knowledge base.") := by
  refine ⟨?_, rfl, ?_, ?_, by decide⟩
  · intro search
    rfl
  · intro msg
    rfl
  · intro docs hne
    cases docs with
    | nil => exact absurd rfl hne
    | cons d ds => rfl

theorem claim_c6_witness :
    retrieve_medical_context true (.found [⟨[("source", "doc1")], "text1"⟩]) =
      ("Source: doc1\nContent: text1", [⟨[("source", "doc1")], "text1"⟩]) := by
  have h := claim_c6_retrieval_tool.2.2.2.1 [⟨[("source", "doc1")], "text1"⟩]
    (by decide)
  rw [h]
  decide

/-- C7: each passage returned by `get_relevant_sources` keeps its
content unchanged when at most 200 characters long, and otherwise is the
first 200 characters followed by an ellipsis — 203 characters exactly;
a raised search failure yields the empty sequence. -/
theorem claim_c7_sources_truncation :
    (∀ docs, List.Forall₂ (fun d out =>
        (d.page_content.length > 200 →
          out.content = pySlice d.page_content 200 ++ "..." ∧
            out.content.length = 203)
        ∧ (d.page_content.length ≤ 200 → out.content = d.page_content))
      docs (get_relevant_sources (.found docs)))
    ∧ (∀ msg, get_relevant_sources (.raises msg) = []) := by
  constructor
  · intro docs
    unfold get_relevant_sources
    rw [List.forall₂_map_right_iff, List.forall₂_same]
    intro d _
    constructor
    · intro hlen
      constructor
      · simp [hlen]
      · have hsl : (pySlice d.page_content 200).length = 200 := by
          show (d.page_content.data.take 200).length = 200
          rw [List.length_take]
          have hd : d.page_content.data.length = d.page_content.length := rfl
          omega
        show ((if d.page_content.length > 200 then
          pySlice d.page_content 200 ++ "..." else d.page_content)).length = 203
        rw [if_pos hlen, String.length_append, hsl]
        rfl
    · intro hlen
      have hgt : ¬(d.page_content.length > 200) := by omega
      simp [hgt]
  · intro msg
    rfl

set_option maxRecDepth 4000 in
theorem claim_c7_witness :
    (get_relevant_sources (.found ([⟨[], ⟨List.replicate 250 'x'⟩⟩] : List Doc))).map
      (fun e => e.content.length) = [203]
    ∧ List.Forall₂ (fun (d : Doc) (out : SourceEntry) =>
        (d.page_content.length > 200 →
          out.content = pySlice d.page_content 200 ++ "..." ∧
            out.content.length = 203)
        ∧ (d.page_content.length ≤ 200 → out.content = d.page_content))
      ([⟨[], ⟨List.replicate 250 'x'⟩⟩] : List Doc)
      (get_relevant_sources (.found ([⟨[], ⟨List.replicate 250 'x'⟩⟩] : List Doc))) :=
  ⟨by decide, claim_c7_sources_truncation.1 [⟨[], ⟨List.replicate 250 'x'⟩⟩]⟩

theorem storeFind_storeSet (st : Store) (id : String) (ts : List Turn) :
    storeFind (storeSet st id ts) id = some ts := by
  induction st with
  | nil => simp [storeSet, storeFind]
  | cons kv rest ih =>
    obtain ⟨k, v⟩ := kv
    by_cases hk : k = id
    · simp [storeSet, storeFind, hk]
    · simp [storeSet, storeFind, hk, ih]

/-- C9: `get` on an absent (or missing) session id returns the empty
sequence; `clear` on an existing non-empty id leaves the id present with
an empty turn list and is a no-op on an unknown id; and an append after
a clear starts a fresh sequence holding exactly the new turn. -/
theorem claim_c9_history_store :
    (∀ (st : Store) (id : String), storeFind st id = none →
      get_history st (some id) = [])
    ∧ (∀ st : Store, get_history st none = [])
    ∧ (∀ (st : Store) (id : String) (ts : List Turn), id ≠ "" →
      storeFind st id = some ts →
      storeFind (clear_history st (some id)) id = some [])
    ∧ (∀ (st : Store) (id : String), storeFind st id = none →
      clear_history st (some id) = st)
    ∧ (∀ (st : Store) (id : String) (t : Turn), id ≠ "" →
      storeFind (chatAppendTurn (clear_history st (some id)) id t) id = some [t]) := by
  refine ⟨?_, ?_, ?_, ?_, ?_⟩
  · intro st id h
    unfold get_history
    by_cases hid : id = ""
    · simp [hid]
    · simp [hid, h]
  · intro st
    rfl
  · intro st id ts hid hfind
    unfold clear_history
    simp [hid, hfind, storeFind_storeSet]
  · intro st id h
    unfold clear_history
    by_cases hid : id = "" <;> simp [hid, h]
  · intro st id t hid
    cases hf : storeFind st id with
    | some ts =>
      have hclear : clear_history st (some id) = storeSet st id [] := by
        unfold clear_history
        simp [hid, hf]
      rw [hclear]
      unfold chatAppendTurn
      simp [storeFind_storeSet]
    | none =>
      have hclear : clear_history st (some id) = st := by
        unfold clear_history
        simp [hid, hf]
      rw [hclear]
      unfold chatAppendTurn
      simp [hf, storeFind_storeSet]

theorem claim_c9_witness :
    get_history ([("s", [])] : Store) (some "x") = []
    ∧ storeFind (clear_history ([("s", [⟨"user", "m", "ts"⟩])] : Store) (some "s")) "s" =
      some []
    ∧ storeFind (chatAppendTurn
        (clear_history ([("s", [⟨"user", "m", "ts"⟩])] : Store) (some "s"))
        "s" ⟨"user", "m2", "t2"⟩) "s" = some [⟨"user", "m2", "t2"⟩] := by
  refine ⟨?_, ?_, ?_⟩
  · exact claim_c9_history_store.1 [("s", [])] "x" (by decide)
  · exact claim_c9_history_store.2.2.1 [("s", [⟨"user", "m", "ts"⟩])] "s"
      [⟨"user", "m", "ts"⟩] (by decide) (by decide)
  · exact claim_c9_history_store.2.2.2.2 [("s", [⟨"user", "m", "ts"⟩])] "s"
      ⟨"user", "m2", "t2"⟩ (by decide)

/-- C10: a passage whose metadata has no `source` entry is rendered with
the fixed `Unknown` source both in the retrieval tool's formatted
context string and in every `get_relevant_sources` entry, so the source
field is never absent. -/
theorem claim_c10_unknown_source :
    (∀ d : Doc, metaLookup d.metadata "source" = none →
      retrieve_medical_context true (.found [d]) =
        ("Source: Unknown\nContent: " ++ d.page_content, [d]))
    ∧ (∀ docs, List.Forall₂
        (fun d out => metaLookup d.metadata "source" = none →
          out.source = "Unknown")
        docs (get_relevant_sources (.found docs))) := by
  constructor
  · intro d hd
    have hr : retrieve_medical_context true (.found [d]) =
        (pyJoin "\n\n" ["Source: " ++ (metaLookup d.metadata "source").getD "Unknown" ++
          "\nContent: " ++ d.page_content], [d]) := rfl
    rw [hr, hd]
    simp only [pyJoin, Option.getD_none]
    rw [show ("Source: " ++ ("Unknown" : String) ++ "\nContent: ") =
      "Source: Unknown\nContent: " from by decide]
  · intro docs
    unfold get_relevant_sources
    rw [List.forall₂_map_right_iff, List.forall₂_same]
    intro d _ hd
    simp [hd]

theorem claim_c10_witness :
    retrieve_medical_context true (.found [⟨[("page", "3")], "body"⟩]) =
      ("Source: Unknown\nContent: body", [⟨[("page", "3")], "body"⟩])
    ∧ (get_relevant_sources (.found [⟨[("page", "3")], "body"⟩])).map
      (fun e => e.source) = ["Unknown"] := by
  constructor
  · have h := claim_c10_unknown_source.1 ⟨[("page", "3")], "body"⟩ (by decide)
    rw [h]
    decide
  · decide
